import Mathlib

/-!
Shallow embedding of the epam-genai-news ingestion pipeline and search service.

The definitions below are translated from the repository's Python source:
  * `prepare_db.py`            — `fill_db_web`, `fill_db_file`, `yield_from_web`
  * `src/db/pinecone.py`       — `PineconeDB.upsert`, `PineconeDB.query`
  * `src/api/v1/routes.py`     — the `/search` endpoint normalization
  * `src/data_providers/file/parser.py` — `FileParser.parse`
  * `src/data_providers/web/web_crawler.py` — `CrawlingHelper`

Article records and embeddings are kept abstract (a type parameter `α`):
the pipeline only moves them around, so nothing about their contents
matters to the verified properties.
-/

namespace NewsIngest

/-- Observable trace of one ingestion run: the Vector Store upsert calls in
order (each with the records it carried), the records embedded in order,
and the number of items pulled from the source generator. -/
structure RunTrace (α : Type) where
  upserts : List (List α)
  embeds : List α
  consumed : Nat
deriving Repr, DecidableEq

/-- The pull loop of `fill_db_web` in `prepare_db.py` (lines 66-99).
Arguments mirror the Python locals: `isLimited` is
`settings.base_config.IS_LIMITED`, `itemsLimit` is
`settings.base_config.ITEMS_LIMIT`, `chunkSize` is the local `chunk_size`,
`maxFails` is `max_fails_in_a_row`, then `fails_in_a_row`,
`embeddings_chunk`, and the remaining source items.  Returns the trace of
the loop together with the final `embeddings_chunk` (the post-loop flush is
added by `fillDbWeb`).  A successful item sets `fails_in_a_row = 0` before
embedding, matching the code. -/
def webLoop (isLimited : Bool) (itemsLimit chunkSize maxFails : Nat) :
    Nat → List α → List (Option α) → RunTrace α × List α
  | _fails, chunk, [] => (⟨[], [], 0⟩, chunk)
  | fails, chunk, none :: rest =>
      if maxFails ≤ fails + 1 then
        (⟨[], [], 1⟩, chunk)
      else
        let r := webLoop isLimited itemsLimit chunkSize maxFails (fails + 1) chunk rest
        (⟨r.1.upserts, r.1.embeds, r.1.consumed + 1⟩, r.2)
  | _fails, chunk, some a :: rest =>
      let chunk2 := chunk ++ [a]
      if isLimited = true ∧ itemsLimit ≤ chunk2.length then
        (⟨[], [a], 1⟩, chunk2.take itemsLimit)
      else if isLimited = false ∧ chunkSize ≤ chunk2.length then
        let r := webLoop isLimited itemsLimit chunkSize maxFails 0 [] rest
        (⟨chunk2 :: r.1.upserts, a :: r.1.embeds, r.1.consumed + 1⟩, r.2)
      else
        let r := webLoop isLimited itemsLimit chunkSize maxFails 0 chunk2 rest
        (⟨r.1.upserts, a :: r.1.embeds, r.1.consumed + 1⟩, r.2)

/-- `fill_db_web` in `prepare_db.py`: run the pull loop with
`chunk_size = 10`, `max_fails_in_a_row = 3`, then, if the remaining
`embeddings_chunk` is non-empty, upsert it once more. -/
def fillDbWeb (isLimited : Bool) (itemsLimit : Nat) (source : List (Option α)) :
    RunTrace α :=
  let r := webLoop isLimited itemsLimit 10 3 0 [] source
  if r.2.isEmpty then r.1 else ⟨r.1.upserts ++ [r.2], r.1.embeds, r.1.consumed⟩

/-- The pull loop of `fill_db_file` in `prepare_db.py` (lines 113-133).
Each successful record is upserted individually (`db.upsert([upsert_data])`);
there is no batching and no post-loop flush.  Note that the code does NOT
reset `fails_in_a_row` after a successful record: the recursive call in the
`some` case passes `fails` through unchanged, exactly as the source does. -/
def fileLoop (maxFails : Nat) : Nat → List (Option α) → RunTrace α
  | _fails, [] => ⟨[], [], 0⟩
  | fails, none :: rest =>
      if maxFails ≤ fails + 1 then
        ⟨[], [], 1⟩
      else
        let tr := fileLoop maxFails (fails + 1) rest
        ⟨tr.upserts, tr.embeds, tr.consumed + 1⟩
  | fails, some a :: rest =>
      let tr := fileLoop maxFails fails rest
      ⟨[a] :: tr.upserts, a :: tr.embeds, tr.consumed + 1⟩

/-- `fill_db_file` in `prepare_db.py`: the file-variant run with
`max_fails_in_a_row = 3`. -/
def fillDbFile (source : List (Option α)) : RunTrace α :=
  fileLoop 3 0 source

/-- Modelled from the spec: the file-variant pull loop as the specification
describes it ("A successful item resets the counter to zero"), i.e. the
same loop as `fileLoop` but with the consecutive-failure counter reset to
`0` on every present record.  Used only to compare the code's actual
behaviour against the claimed one. -/
def fileLoopResetSpec (maxFails : Nat) : Nat → List (Option α) → RunTrace α
  | _fails, [] => ⟨[], [], 0⟩
  | fails, none :: rest =>
      if maxFails ≤ fails + 1 then
        ⟨[], [], 1⟩
      else
        let tr := fileLoopResetSpec maxFails (fails + 1) rest
        ⟨tr.upserts, tr.embeds, tr.consumed + 1⟩
  | _fails, some a :: rest =>
      let tr := fileLoopResetSpec maxFails 0 rest
      ⟨[a] :: tr.upserts, a :: tr.embeds, tr.consumed + 1⟩

/-- Modelled from the spec: `fill_db_file` with the counter-reset behaviour
the claim attributes to it. -/
def fillDbFileResetSpec (source : List (Option α)) : RunTrace α :=
  fileLoopResetSpec 3 0 source

example :
    fillDbWeb false 5 [some 7, none, none, none, some 8] =
      ⟨[[7]], [7], 4⟩ := by decide

example :
    fillDbFile [none, some 0, none, none, some 1] = ⟨[[0]], [0], 4⟩ := by
  decide

example :
    fillDbFileResetSpec [none, some 0, none, none, some 1] =
      ⟨[[0], [1]], [0, 1], 5⟩ := by decide

example :
    fillDbWeb true 5 [some 1, some 2, some 3, some 4, some 5, some 6, some 7] =
      ⟨[[1, 2, 3, 4, 5]], [1, 2, 3, 4, 5], 5⟩ := by decide

/-- Python exception values as seen at the boundary of `PineconeDB`
(`src/db/pinecone.py`): either the module's own `PineconeDBError`
(optionally carrying the original cause, per `raise ... from e`), or some
other exception raised by the underlying Pinecone client (kept abstract as
a value of `ε`). -/
inductive PyExc (ε : Type) where
  | pineconeDBError (msg : String) (cause : Option ε)
  | client (e : ε)
deriving Repr, DecidableEq

/-- Whether an exception is the store-specific error kind
(`PineconeDBError`). -/
def PyExc.isPineconeDBError : PyExc ε → Bool
  | .pineconeDBError _ _ => true
  | .client _ => false

/-- The readiness-poll loop at the top of `PineconeDB.upsert`:
`for _ in range(n): if ready: break; time.sleep(1) else: <not ready>`.
`ready i` is what `describe_index(...).status["ready"]` reports on the
`i`-th poll.  Returns the number of status polls performed, the list of
sleep durations performed (each `time.sleep(1)` contributes a `1`), and
whether the index reported ready. -/
def pollLoop (ready : Nat → Bool) : Nat → Nat → Nat × List Nat × Bool
  | _i, 0 => (0, [], false)
  | i, n + 1 =>
      if ready i then
        (1, [], true)
      else
        let r := pollLoop ready (i + 1) n
        (r.1 + 1, 1 :: r.2.1, r.2.2)

/-- Observable outcome of one `PineconeDB.upsert` call: polls and sleeps
performed by the readiness loop, whether the client's data upsert was
invoked, the records actually upserted, and the exception raised (if any). -/
structure UpsertRun (α ε : Type) where
  polls : Nat
  sleeps : List Nat
  clientCalled : Bool
  upserted : List α
  raised : Option (PyExc ε)
deriving Repr, DecidableEq

/-- `PineconeDB.upsert` (`src/db/pinecone.py` lines 93-109): poll readiness
up to 10 times with `time.sleep(1)` after each failed poll; if never ready,
raise `PineconeDBError("Index is not ready after 10 seconds")` without
touching the data; otherwise call the client upsert, and if the client
raises `e`, re-raise `PineconeDBError(...) from e`.  `clientResult = none`
means the client call succeeds. -/
def upsertModel (ready : Nat → Bool) (clientResult : Option ε) (data : List α) :
    UpsertRun α ε :=
  let r := pollLoop ready 0 10
  if r.2.2 then
    match clientResult with
    | none => ⟨r.1, r.2.1, true, data, none⟩
    | some e =>
        ⟨r.1, r.2.1, true, [],
          some (.pineconeDBError "Failed to upsert data" (some e))⟩
  else
    ⟨r.1, r.2.1, false, [],
      some (.pineconeDBError "Index is not ready after 10 seconds" none)⟩

/-- `PineconeDB.query` (`src/db/pinecone.py` lines 111-129): embeds the
query text and calls the client's query with no `try`/`except` around it,
so any exception `e` raised by the client propagates unchanged; on success
the client's response `resp` is returned as is. -/
def queryModel (clientResult : Option ε) (resp : ρ) : Except (PyExc ε) ρ :=
  match clientResult with
  | none => Except.ok resp
  | some e => Except.error (.client e)

/-- A metadata value inside a match's metadata mapping (contents are
irrelevant to the verified properties; scores are modelled as rationals). -/
inductive MVal where
  | num (q : ℚ)
  | str (s : String)
deriving Repr, DecidableEq

/-- A single match of a Vector Store query result as the `/search` route
sees it (`src/api/v1/routes.py` lines 51-62): either an object carrying a
`metadata` attribute (with `getattr(match, "score", 0.0)` modelled as an
optional score), or a mapping with optional `"metadata"` and `"score"`
keys, or some other unrecognized shape. -/
inductive QMatch where
  | attr (metadata : List (String × MVal)) (score : Option ℚ)
  | dict (metadata : Option (List (String × MVal))) (score : Option ℚ)
  | other
deriving Repr, DecidableEq

/-- Whether the route recognizes the match shape (the `else: continue`
branch rejects everything else). -/
def QMatch.recognized : QMatch → Bool
  | .other => false
  | _ => true

/-- A query result as the route sees it (`routes.py` lines 43-49): the
`matches` collection exposed as an attribute, or as a mapping key, or an
unrecognized shape. -/
inductive QResult where
  | attrMatches (matchList : List QMatch)
  | dictMatches (matchList : List QMatch)
  | unrecognized (typeName : String)
deriving Repr, DecidableEq

/-- Python's `"score" in metadata` on the metadata mapping. -/
def hasScoreKey (md : List (String × MVal)) : Bool :=
  md.any (fun p => p.1 = "score")

/-- Per-match normalization of the `/search` route body: extract the
metadata mapping and score (score defaults to `0.0`, a missing `"metadata"`
key defaults to the empty mapping), inject the score under `"score"` if
that key is absent (Python dict assignment appends a new key in insertion
order), and skip unrecognized match shapes (`continue`). -/
def normalizeMatch : QMatch → Option (List (String × MVal))
  | .attr md sc =>
      let score := sc.getD 0
      some (if hasScoreKey md then md else md ++ [("score", MVal.num score)])
  | .dict md sc =>
      let metadata := md.getD []
      let score := sc.getD 0
      some
        (if hasScoreKey metadata then metadata
         else metadata ++ [("score", MVal.num score)])
  | .other => none

/-- The result-normalization portion of the `/search` route: recognized
results collect one normalized article per recognized match in match
order with `errors = []`; an unrecognized result shape returns no
articles and the single error entry `"Unexpected result format"`. -/
def searchNormalize :
    QResult → List (List (String × MVal)) × List String
  | .attrMatches ms => (ms.filterMap normalizeMatch, [])
  | .dictMatches ms => (ms.filterMap normalizeMatch, [])
  | .unrecognized _ => ([], ["Unexpected result format"])

/-- Observable outcome of one HTTP `GET /search` request: the `top_k`
values actually passed to `PineconeDB.query`, the HTTP status, and the
response body (articles and errors). -/
structure RouteRun where
  queryCalls : List Int
  status : Nat
  articles : List (List (String × MVal))
  errors : List String
deriving Repr, DecidableEq

/-- The `/search` endpoint (`src/api/v1/routes.py` lines 17-71).  The
`top_k` parameter is declared `Query(3, ge=1, le=10)`, so FastAPI rejects a
request with `top_k` outside `[1, 10]` with a 422 validation error before
the handler body runs — in that case the store is never queried.  Inside
the handler, `db.query` raising is caught by the blanket `except` and
converted to an HTTP 500; a successful query result is normalized by
`searchNormalize` into a 200 response. -/
def searchRoute (storeResult : Except String QResult) (topK : Int) : RouteRun :=
  if 1 ≤ topK ∧ topK ≤ 10 then
    match storeResult with
    | .error _ => ⟨[topK], 500, [], []⟩
    | .ok r =>
        let n := searchNormalize r
        ⟨[topK], 200, n.1, n.2⟩
  else
    ⟨[], 422, [], []⟩

/-- Keyword parameters accepted by `CrawlingHelper.__init__`
(`src/data_providers/web/web_crawler.py` line 88): only `browser_config`
(besides `self`). -/
def crawlingHelperInitKeywords : List String := ["browser_config"]

/-- The method names defined on `CrawlingHelper` in
`src/data_providers/web/web_crawler.py`. -/
def crawlingHelperMethodNames : List String :=
  ["__init__", "get_default_browser_config", "get_default_llm_strategy",
   "contains_all_required_keys", "fetch_and_process_page", "start", "close",
   "__aenter__", "__aexit__"]

/-- The keyword arguments `yield_from_web` in `prepare_db.py` passes when
constructing `CrawlingHelper` (line 40: `CrawlingHelper(scrapper=...)`). -/
def yieldFromWebCtorKeywords : List String := ["scrapper"]

/-- Python call semantics: a call succeeds only if every keyword argument
names an accepted parameter; otherwise it raises `TypeError` before the
callee's body runs. -/
def acceptsKeywords (params kwargs : List String) : Bool :=
  kwargs.all params.contains

/-- The items produced by `yield_from_web` in `prepare_db.py`: the
generator body first constructs `CrawlingHelper(scrapper=AxiosScraper())`;
if that call raised no `TypeError`, `AsyncDataProvider(parser).provide_data`
would iterate `parser.parse()`, which fails with `AttributeError` since
`CrawlingHelper` defines no `parse` method.  Either way the generator
raises before yielding a single item; the `Except.ok` branches are
unreachable on this source. -/
def yieldFromWebModel (α : Type) : Except String (List (Option α)) :=
  if acceptsKeywords crawlingHelperInitKeywords yieldFromWebCtorKeywords then
    if crawlingHelperMethodNames.contains "parse" then
      Except.ok []
    else
      Except.error "AttributeError: CrawlingHelper object has no attribute parse"
  else
    Except.error "TypeError: CrawlingHelper.init got an unexpected keyword argument scrapper"

/-- The whole web-ingestion entry point: `fill_db_web` iterating
`yield_from_web()`.  If the generator raises on its first step, the
exception propagates out of `fill_db_web` before any embed or upsert. -/
def fillDbWebEntry (isLimited : Bool) (itemsLimit : Nat) (α : Type) :
    Except String (RunTrace α) :=
  match yieldFromWebModel α with
  | .error e => Except.error e
  | .ok items => Except.ok (fillDbWeb isLimited itemsLimit items)

example :
    upsertModel (fun _ => false) (none : Option String) ([1, 2] : List Nat) =
      ⟨10, [1, 1, 1, 1, 1, 1, 1, 1, 1, 1], false, [],
        some (.pineconeDBError "Index is not ready after 10 seconds" none)⟩ := by
  decide

example :
    upsertModel (fun i => decide (i = 2)) (some "boom") ([1] : List Nat) =
      ⟨3, [1, 1], true, [],
        some (.pineconeDBError "Failed to upsert data" (some "boom"))⟩ := by
  decide

example :
    queryModel (some "boom") (7 : Nat) =
      (Except.error (.client "boom") : Except (PyExc String) Nat) := rfl

example :
    searchNormalize (.unrecognized "NoneType") =
      ([], ["Unexpected result format"]) := rfl

example :
    searchNormalize
        (.attrMatches [.attr [("title", .str "t")] (some 2), .other,
          .dict none none]) =
      ([[("title", .str "t"), ("score", .num 2)],
        [("score", .num 0)]], []) := by
  decide

example : searchRoute (.ok (.attrMatches [])) 11 = ⟨[], 422, [], []⟩ := by
  decide

/-- The loop predicate for buffer splitting: true while the current
character is not the record separator (used by `split("\n", 1)`). -/
def notNl (c : Char) : Bool := c ≠ '\n'

/-- Python's `"\n" in buffer`. -/
def hasNewline (b : List Char) : Bool := b.contains '\n'

/-- Python's `buffer.split("\n", 1)`: the part before the first newline and
the part after it. -/
def splitFirstNewline (b : List Char) : List Char × List Char :=
  (b.takeWhile notNl, (b.dropWhile notNl).tail)

theorem dropWhile_notNl_ne_nil {b : List Char} (h : hasNewline b = true) :
    b.dropWhile notNl ≠ [] := by
  induction b with
  | nil => simp [hasNewline] at h
  | cons c rest ih =>
      by_cases hc : c = '\n'
      · subst hc
        simp [List.dropWhile, notNl]
      · have hr : hasNewline rest = true := by
          have hm : '\n' = c ∨ '\n' ∈ rest := by
            simpa [hasNewline, List.contains_cons] using h
          have : '\n' ∈ rest := by
            rcases hm with h1 | h2
            · exact absurd h1.symm hc
            · exact h2
          simpa [hasNewline, List.contains_cons] using this
        simpa [List.dropWhile, notNl, hc] using ih hr

theorem length_dropWhile_notNl_le (b : List Char) :
    (b.dropWhile notNl).length ≤ b.length := by
  induction b with
  | nil => simp
  | cons c rest ih =>
      by_cases hc : notNl c
      · simpa [List.dropWhile, hc] using Nat.le_succ_of_le ih
      · simp [List.dropWhile, hc]

theorem splitFirstNewline_snd_length_lt {b : List Char}
    (h : hasNewline b = true) :
    (splitFirstNewline b).2.length < b.length := by
  have hne := dropWhile_notNl_ne_nil h
  have hle := length_dropWhile_notNl_le b
  have hpos : 0 < (b.dropWhile notNl).length := List.length_pos.mpr hne
  have : (b.dropWhile notNl).tail.length = (b.dropWhile notNl).length - 1 :=
    List.length_tail _
  simp only [splitFirstNewline, this]
  omega

/-- The inner `while "\n" in buffer:` loop of `FileParser.parse`
(`src/data_providers/file/parser.py` lines 17-23), written with explicit
fuel so that it is structurally recursive and kernel-evaluable: repeatedly
split the buffer at its first newline, yielding the line before it, until
the buffer holds no newline.  Each iteration removes at least the newline
character from the buffer, so `b.length` fuel always suffices and the
out-of-fuel branch is unreachable from `drainBuffer`
(`drainBufferFuel_congr` below). -/
def drainBufferFuel : Nat → List Char → List (List Char) × List Char
  | 0, b => ([], b)
  | fuel + 1, b =>
      if hasNewline b = true then
        let p := splitFirstNewline b
        let r := drainBufferFuel fuel p.2
        (p.1 :: r.1, r.2)
      else
        ([], b)

/-- The `while "\n" in buffer:` loop, run to completion on buffer `b`. -/
def drainBuffer (b : List Char) : List (List Char) × List Char :=
  drainBufferFuel b.length b

theorem drainBufferFuel_congr :
    ∀ (fuel₁ fuel₂ : Nat) (b : List Char), b.length ≤ fuel₁ →
      b.length ≤ fuel₂ → drainBufferFuel fuel₁ b = drainBufferFuel fuel₂ b := by
  intro fuel₁
  induction fuel₁ with
  | zero =>
      intro fuel₂ b hb₁ _
      have : b = [] := List.length_eq_zero.mp (Nat.le_zero.mp hb₁)
      subst this
      cases fuel₂ <;> simp [drainBufferFuel, hasNewline]
  | succ n ih =>
      intro fuel₂ b hb₁ hb₂
      cases fuel₂ with
      | zero =>
          have : b = [] := List.length_eq_zero.mp (Nat.le_zero.mp hb₂)
          subst this
          simp [drainBufferFuel, hasNewline]
      | succ m =>
          by_cases h : hasNewline b = true
          · have hlt := splitFirstNewline_snd_length_lt h
            have h₁ : (splitFirstNewline b).2.length ≤ n := by omega
            have h₂ : (splitFirstNewline b).2.length ≤ m := by omega
            simp only [drainBufferFuel, h, if_true]
            rw [ih m _ h₁ h₂]
          · simp [drainBufferFuel, h]

/-- The chunk loop of `FileParser.parse`: for every chunk produced by
`FileReader.read`, append it to the buffer and drain all complete lines.
Data left in the buffer when the chunks run out is dropped, exactly as the
generator in the source simply returns. -/
def parseChunks : List Char → List (List Char) → List (List Char)
  | _buf, [] => []
  | buf, c :: cs =>
      let r := drainBuffer (buf ++ c)
      r.1 ++ parseChunks r.2 cs

/-- `FileParser.parse` over the byte chunks of the input file, started with
the empty buffer (`buffer = b""`).  Yields the raw lines; when a decoder is
configured the source applies it to each yielded line, which does not
change which lines are yielded. -/
def FileParser_parse (chunks : List (List Char)) : List (List Char) :=
  parseChunks [] chunks

/-- Splitting a character stream at every newline; the last component is
the residue after the final newline (the whole stream when it has none). -/
def splitNewlines : List Char → List (List Char)
  | [] => [[]]
  | c :: rest =>
      match splitNewlines rest with
      | [] => [[]]
      | l :: ls => if c = '\n' then [] :: l :: ls else (c :: l) :: ls

/-- All components of a split except the last one. -/
def initParts : List (List Char) → List (List Char)
  | [] => []
  | [_] => []
  | x :: y :: t => x :: initParts (y :: t)

/-- The last component of a split (the empty stream for an empty split). -/
def lastPart : List (List Char) → List Char
  | [] => []
  | [x] => x
  | _ :: y :: t => lastPart (y :: t)

/-- Prepend a stream to the first component of a split. -/
def glueHead (g : List Char) : List (List Char) → List (List Char)
  | [] => []
  | h :: t => (g ++ h) :: t

/-- Modelled from the claim: the newline-terminated lines of a stream,
i.e. every maximal newline-free segment that is followed by a newline
character — the final segment not followed by a newline is excluded. -/
def newlineTerminatedLines (content : List Char) : List (List Char) :=
  initParts (splitNewlines content)

example :
    FileParser_parse [['a', 'b', '\n', 'c'], ['d', '\n', 'e']] =
      [['a', 'b'], ['c', 'd']] := by decide

example : newlineTerminatedLines ['a', 'b', '\n', 'c', 'd', '\n', 'e'] =
    [['a', 'b'], ['c', 'd']] := by decide

example : FileParser_parse [['x', '\n', 'y']] = [['x']] := by decide

example : yieldFromWebModel Nat =
    Except.error
      "TypeError: CrawlingHelper.init got an unexpected keyword argument scrapper" := by
  rfl

/-- Ceiling division on naturals, used to state the flush-count property. -/
def ceilDivNat (a b : Nat) : Nat := (a + b - 1) / b

theorem webLoop_limited (itemsLimit chunkSize maxFails : Nat) :
    ∀ (src : List (Option α)) (fails : Nat) (chunk : List α),
      chunk.length < itemsLimit →
      (webLoop true itemsLimit chunkSize maxFails fails chunk src).1.upserts = []
      ∧ (webLoop true itemsLimit chunkSize maxFails fails chunk src).2 =
          chunk ++ (webLoop true itemsLimit chunkSize maxFails fails chunk src).1.embeds
      ∧ chunk.length +
          (webLoop true itemsLimit chunkSize maxFails fails chunk src).1.embeds.length
          ≤ itemsLimit := by
  intro src
  induction src with
  | nil =>
      intro fails chunk hlt
      refine ⟨rfl, by simp [webLoop], ?_⟩
      simp only [webLoop, List.length_nil]
      omega
  | cons item rest ih =>
      intro fails chunk hlt
      cases item with
      | none =>
          simp only [webLoop]
          split
          · dsimp only
            refine ⟨rfl, by simp, ?_⟩
            simp only [List.length_nil]
            omega
          · dsimp only
            simpa using ih (fails + 1) chunk hlt
      | some a =>
          simp only [webLoop]
          split
          next hcap =>
            have hc2 : itemsLimit ≤ chunk.length + 1 := by simpa using hcap.2
            have hlen : itemsLimit = (chunk ++ [a]).length := by
              simp only [List.length_append, List.length_cons, List.length_nil]
              omega
            dsimp only
            refine ⟨rfl, ?_, ?_⟩
            · rw [hlen, List.take_length]
            · simp only [List.length_cons, List.length_nil]
              omega
          next hcap =>
            split
            next hfl => exact absurd hfl.1 (by simp)
            next hfl =>
              have hlt2 : (chunk ++ [a]).length < itemsLimit := by
                have hc := hcap
                simp at hc
                simp only [List.length_append, List.length_cons, List.length_nil]
                omega
              have h2 := ih 0 (chunk ++ [a]) hlt2
              dsimp only
              refine ⟨h2.1, ?_, ?_⟩
              · rw [h2.2.1]
                simp
              · have h3 := h2.2.2
                simp only [List.length_append, List.length_cons, List.length_nil]
                  at h3 ⊢
                omega

theorem webLoop_unlimited (itemsLimit chunkSize maxFails : Nat)
    (hcs : 0 < chunkSize) :
    ∀ (src : List (Option α)) (fails : Nat) (chunk : List α),
      chunk.length < chunkSize →
      (webLoop false itemsLimit chunkSize maxFails fails chunk src).1.upserts.length =
        (chunk.length +
          (webLoop false itemsLimit chunkSize maxFails fails chunk src).1.embeds.length)
          / chunkSize
      ∧ (webLoop false itemsLimit chunkSize maxFails fails chunk src).2.length =
          (chunk.length +
            (webLoop false itemsLimit chunkSize maxFails fails chunk src).1.embeds.length)
            % chunkSize := by
  intro src
  induction src with
  | nil =>
      intro fails chunk hlt
      simp only [webLoop, List.length_nil, Nat.add_zero]
      exact ⟨(Nat.div_eq_of_lt hlt).symm, (Nat.mod_eq_of_lt hlt).symm⟩
  | cons item rest ih =>
      intro fails chunk hlt
      cases item with
      | none =>
          simp only [webLoop]
          split
          · dsimp only
            simp only [List.length_nil, Nat.add_zero]
            exact ⟨(Nat.div_eq_of_lt hlt).symm, (Nat.mod_eq_of_lt hlt).symm⟩
          · dsimp only
            simpa using ih (fails + 1) chunk hlt
      | some a =>
          simp only [webLoop]
          split
          next hfl => exact absurd hfl.1 (by simp)
          next =>
            split
            next hfl =>
              have hfl2 : chunkSize ≤ chunk.length + 1 := by simpa using hfl.2
              have h2 := ih 0 [] (by simpa using hcs)
              simp only [List.length_nil, Nat.zero_add] at h2
              have hnum :
                  chunk.length +
                      ((webLoop false itemsLimit chunkSize maxFails 0 [] rest).1.embeds.length
                        + 1) =
                    (webLoop false itemsLimit chunkSize maxFails 0 [] rest).1.embeds.length
                      + chunkSize := by omega
              dsimp only
              constructor
              · simp only [List.length_cons, hnum, Nat.add_div_right _ hcs]
                rw [h2.1]
              · simp only [List.length_cons, hnum, Nat.add_mod_right]
                exact h2.2
            next hfl =>
              have hlt2 : (chunk ++ [a]).length < chunkSize := by
                have hf := hfl
                simp at hf
                simp only [List.length_append, List.length_cons, List.length_nil]
                omega
              have h2 := ih 0 (chunk ++ [a]) hlt2
              simp only [List.length_append, List.length_cons, List.length_nil]
                at h2
              have hnum :
                  chunk.length +
                      ((webLoop false itemsLimit chunkSize maxFails 0 (chunk ++ [a])
                          rest).1.embeds.length + 1) =
                    chunk.length + 1 +
                      (webLoop false itemsLimit chunkSize maxFails 0 (chunk ++ [a])
                          rest).1.embeds.length := by omega
              dsimp only
              constructor
              · simp only [List.length_cons, hnum]
                exact h2.1
              · simp only [List.length_cons, hnum]
                exact h2.2

theorem webLoop_embeds_take (isLimited : Bool) (itemsLimit chunkSize maxFails : Nat) :
    ∀ (src : List (Option α)) (fails : Nat) (chunk : List α),
      (webLoop isLimited itemsLimit chunkSize maxFails fails chunk src).1.embeds =
        (src.filterMap id).take
          (webLoop isLimited itemsLimit chunkSize maxFails fails chunk
              src).1.embeds.length := by
  intro src
  induction src with
  | nil => intro fails chunk; simp [webLoop]
  | cons item rest ih =>
      intro fails chunk
      cases item with
      | none =>
          simp only [webLoop]
          split
          · simp
          · dsimp only
            simpa using ih (fails + 1) chunk
      | some a =>
          simp only [webLoop]
          split
          · simp
          · split
            · dsimp only
              simpa using ih 0 []
            · dsimp only
              simpa using ih 0 (chunk ++ [a])

theorem webLoop_consumed_embeds (isLimited : Bool)
    (itemsLimit chunkSize maxFails : Nat) :
    ∀ (src : List (Option α)) (fails : Nat) (chunk : List α),
      (src.take
            (webLoop isLimited itemsLimit chunkSize maxFails fails chunk
                src).1.consumed).filterMap id =
        (webLoop isLimited itemsLimit chunkSize maxFails fails chunk src).1.embeds := by
  intro src
  induction src with
  | nil => intro fails chunk; simp [webLoop]
  | cons item rest ih =>
      intro fails chunk
      cases item with
      | none =>
          simp only [webLoop]
          split
          · simp
          · dsimp only
            simpa using ih (fails + 1) chunk
      | some a =>
          simp only [webLoop]
          split
          · simp
          · split
            · dsimp only
              simpa using ih 0 []
            · dsimp only
              simpa using ih 0 (chunk ++ [a])

theorem fileLoop_upserts_eq (maxFails : Nat) :
    ∀ (src : List (Option α)) (fails : Nat),
      (fileLoop maxFails fails src).upserts =
        (fileLoop maxFails fails src).embeds.map (fun a => [a]) := by
  intro src
  induction src with
  | nil => intro fails; simp [fileLoop]
  | cons item rest ih =>
      intro fails
      cases item with
      | none =>
          simp only [fileLoop]
          split
          · simp
          · dsimp only
            simpa using ih (fails + 1)
      | some a =>
          simp only [fileLoop]
          simpa using ih fails

theorem fillDbWeb_embeds (isLimited : Bool) (itemsLimit : Nat)
    (src : List (Option α)) :
    (fillDbWeb isLimited itemsLimit src).embeds =
      (webLoop isLimited itemsLimit 10 3 0 [] src).1.embeds := by
  simp only [fillDbWeb]
  split <;> rfl

theorem fillDbWeb_consumed (isLimited : Bool) (itemsLimit : Nat)
    (src : List (Option α)) :
    (fillDbWeb isLimited itemsLimit src).consumed =
      (webLoop isLimited itemsLimit 10 3 0 [] src).1.consumed := by
  simp only [fillDbWeb]
  split <;> rfl

theorem fillDbWeb_upserts_of_nil (isLimited : Bool) (itemsLimit : Nat)
    (src : List (Option α))
    (h : (webLoop isLimited itemsLimit 10 3 0 [] src).2 = []) :
    (fillDbWeb isLimited itemsLimit src).upserts =
      (webLoop isLimited itemsLimit 10 3 0 [] src).1.upserts := by
  simp [fillDbWeb, h]

theorem fillDbWeb_upserts_of_ne_nil (isLimited : Bool) (itemsLimit : Nat)
    (src : List (Option α))
    (h : (webLoop isLimited itemsLimit 10 3 0 [] src).2 ≠ []) :
    (fillDbWeb isLimited itemsLimit src).upserts =
      (webLoop isLimited itemsLimit 10 3 0 [] src).1.upserts ++
        [(webLoop isLimited itemsLimit 10 3 0 [] src).2] := by
  have hie : (webLoop isLimited itemsLimit 10 3 0 [] src).2.isEmpty = false := by
    cases hc : (webLoop isLimited itemsLimit 10 3 0 [] src).2 with
    | nil => exact absurd hc h
    | cons x xs => simp
  simp only [fillDbWeb, hie]
  simp

/-- C1 counterexample: the claim asserts that in BOTH ingestion variants
"every present (successfully fetched) record resets the counter to zero".
`fill_db_file` never resets `fails_in_a_row`.  On the source
`[null, A, null, null, B]` the claimed reset semantics
(`fillDbFileResetSpec`) processes both `A` and `B` (the two nulls after `A`
only bring the counter back to 2), but the code (`fillDbFile`) breaks at
the fourth item because the counter, never reset at `A`, reaches 3 — `B` is
never processed and the two runs differ. -/
theorem claim1_counterexample :
    (fillDbFile [none, some 0, none, none, some 1]).embeds = [0]
    ∧ (fillDbFile [none, some 0, none, none, some 1]).consumed = 4
    ∧ (fillDbFileResetSpec [none, some 0, none, none, some 1]).embeds = [0, 1]
    ∧ fillDbFile [none, some 0, none, none, some 1] ≠
        fillDbFileResetSpec [none, some 0, none, none, some 1] := by
  decide

/-- C1 (amended): on an absent record both variants increment the
consecutive-failure counter and terminate the pull loop once it reaches
`max_consecutive_failures` (3); the scenario `[A, null, null, null, B]`
stops at the third consecutive null in both variants, never pulls past it
(consumed = 4, so `B` is never processed), and the only upsert call carries
exactly `[A]` (the web variant flushes its buffered batch after the loop,
the file variant upserted `A` individually during the loop).  The web
variant resets the counter to zero on every present record (so
`[null, null, A, null, null, B]` survives to process both `A` and `B`),
but the file variant does NOT reset it: on `[null, null, A, null, B]` the
counter reaches 3 at the fourth item despite the success at `A`, and `B`
is never processed. -/
theorem claim1_failure_breaker {α : Type} (a b : α) (rest : List (Option α))
    (itemsLimit : Nat) :
    fillDbWeb false itemsLimit ([some a, none, none, none, some b] ++ rest) =
        ⟨[[a]], [a], 4⟩
    ∧ fillDbFile ([some a, none, none, none, some b] ++ rest) = ⟨[[a]], [a], 4⟩
    ∧ fillDbWeb false itemsLimit [none, none, some a, none, none, some b] =
        ⟨[[a, b]], [a, b], 6⟩
    ∧ fillDbFile [none, none, some a, none, some b] = ⟨[[a]], [a], 4⟩ := by
  refine ⟨?_, ?_, ?_, ?_⟩ <;>
    simp [fillDbWeb, webLoop, fillDbFile, fileLoop, List.isEmpty]

/-- C2 counterexample: the claim quantifies over every limited run whose
source yields at least `items_limit` valid records and asserts exactly one
upsert call carrying exactly `items_limit` records.  With `items_limit = 5`
and source `[A, null, null, null, B, C, D, E]` (five valid records), the
failure breaker trips before the cap is reached: the single flush carries
one record, not five.  And with `items_limit = 0` the first valid record is
embedded, the batch is truncated to zero records and dropped, so no upsert
call happens at all. -/
theorem claim2_counterexample :
    (fillDbWeb true 5
        [some 0, none, none, none, some 1, some 2, some 3, some 4]).upserts =
      [[0]]
    ∧ (fillDbWeb true 0 [some 0]).embeds = [0]
    ∧ (fillDbWeb true 0 [some 0]).upserts = [] := by
  decide

/-- C2 (amended): for every limited run with `items_limit ≥ 1` in which the
pull loop actually reaches the item cap (it embeds `items_limit` records —
equivalently, the cap is hit before the failure breaker trips or the source
ends), the pipeline performs exactly one upsert call, carrying exactly the
embedded batch, which consists of the first `items_limit` valid records of
the source; the loop consumes a prefix of the source containing exactly
those records, so no later source item is ever embedded. -/
theorem claim2_item_cap {α : Type} (itemsLimit : Nat) (src : List (Option α))
    (hL : 1 ≤ itemsLimit)
    (hcap : (fillDbWeb true itemsLimit src).embeds.length = itemsLimit) :
    (fillDbWeb true itemsLimit src).upserts =
        [(fillDbWeb true itemsLimit src).embeds]
    ∧ (fillDbWeb true itemsLimit src).embeds = (src.filterMap id).take itemsLimit
    ∧ (src.take (fillDbWeb true itemsLimit src).consumed).filterMap id =
        (fillDbWeb true itemsLimit src).embeds := by
  have h0 : (([] : List α)).length < itemsLimit := by simpa using hL
  have h := webLoop_limited itemsLimit 10 3 src 0 [] h0
  rw [fillDbWeb_embeds] at hcap
  have hsnd : (webLoop true itemsLimit 10 3 0 [] src).2 =
      (webLoop true itemsLimit 10 3 0 [] src).1.embeds := by
    simpa using h.2.1
  have hne : (webLoop true itemsLimit 10 3 0 [] src).2 ≠ [] := by
    rw [hsnd]
    intro hnil
    rw [hnil] at hcap
    simp at hcap
    omega
  refine ⟨?_, ?_, ?_⟩
  · rw [fillDbWeb_upserts_of_ne_nil true itemsLimit src hne, fillDbWeb_embeds,
      h.1, hsnd]
    simp
  · rw [fillDbWeb_embeds]
    conv_rhs => rw [← hcap]
    exact webLoop_embeds_take true itemsLimit 10 3 src 0 []
  · rw [fillDbWeb_embeds, fillDbWeb_consumed]
    exact webLoop_consumed_embeds true itemsLimit 10 3 src 0 []

/-- C2 witness: the spec's own scenario — `is_limited = true`,
`items_limit = 5`, a source of 7 valid records — instantiates the amended
theorem: one flush of exactly the first 5 records, stopping at the 5th. -/
theorem claim2_item_cap_witness :
    (fillDbWeb true 5
          [some 1, some 2, some 3, some 4, some 5, some 6, some 7]).upserts =
        [(fillDbWeb true 5
            [some 1, some 2, some 3, some 4, some 5, some 6, some 7]).embeds]
    ∧ (fillDbWeb true 5
          [some 1, some 2, some 3, some 4, some 5, some 6, some 7]).embeds =
        (([some 1, some 2, some 3, some 4, some 5, some 6,
            some 7] : List (Option Nat)).filterMap id).take 5
    ∧ (([some 1, some 2, some 3, some 4, some 5, some 6,
          some 7] : List (Option Nat)).take
            (fillDbWeb true 5
              [some 1, some 2, some 3, some 4, some 5, some 6,
                some 7]).consumed).filterMap id =
        (fillDbWeb true 5
          [some 1, some 2, some 3, some 4, some 5, some 6, some 7]).embeds :=
  claim2_item_cap 5
    [some 1, some 2, some 3, some 4, some 5, some 6, some 7]
    (by decide) (by decide)

/-- C3 counterexample: the claim asserts for EVERY ingestion run that the
number of upsert calls is ⌈embedded / effective threshold⌉ with threshold
`chunk_size = 10` when unlimited.  The file variant has no batching: on a
source of two valid records it performs 2 upsert calls (one per record),
while ⌈2 / 10⌉ = 1. -/
theorem claim3_counterexample :
    (fillDbFile [some 0, some 1]).upserts = [[0], [1]]
    ∧ (fillDbFile [some 0, some 1]).embeds.length = 2
    ∧ ceilDivNat 2 10 = 1
    ∧ (fillDbFile [some 0, some 1]).upserts.length ≠
        ceilDivNat (fillDbFile [some 0, some 1]).embeds.length 10 := by
  decide

/-- C3 (amended): the ⌈embedded / threshold⌉ flush-count law holds for the
WEB variant: in an unlimited run the upsert-call count is
⌈embedded / chunk_size⌉ with `chunk_size = 10` (full batches flushed during
the loop, a non-empty remainder flushed exactly once after it); in a
limited run with `items_limit ≥ 1` at most `items_limit` records are
embedded and the call count is ⌈embedded / items_limit⌉ (zero or one
flush).  The FILE variant instead performs one single-record upsert call
per embedded record (call count = embedded count).  An immediately-empty
source produces zero upsert calls in both variants. -/
theorem claim3_flush_count {α : Type} (itemsLimit : Nat)
    (src : List (Option α)) :
    (fillDbWeb false itemsLimit src).upserts.length =
        ceilDivNat (fillDbWeb false itemsLimit src).embeds.length 10
    ∧ (1 ≤ itemsLimit →
        (fillDbWeb true itemsLimit src).upserts.length =
            ceilDivNat (fillDbWeb true itemsLimit src).embeds.length itemsLimit
        ∧ (fillDbWeb true itemsLimit src).embeds.length ≤ itemsLimit)
    ∧ (fillDbFile src).upserts = (fillDbFile src).embeds.map (fun a => [a])
    ∧ (fillDbFile src).upserts.length = (fillDbFile src).embeds.length
    ∧ (fillDbWeb false itemsLimit ([] : List (Option α))).upserts = []
    ∧ (fillDbFile ([] : List (Option α))).upserts = [] := by
  refine ⟨?_, ?_, ?_, ?_, by simp [fillDbWeb, webLoop, List.isEmpty], rfl⟩
  · have h := webLoop_unlimited itemsLimit 10 3 (by norm_num) src 0 []
      (by simp)
    simp only [List.length_nil, Nat.zero_add] at h
    rw [fillDbWeb_embeds]
    cases hr : (webLoop false itemsLimit 10 3 0 [] src).2 with
    | nil =>
        have hmod : (webLoop false itemsLimit 10 3 0 [] src).1.embeds.length
            % 10 = 0 := by
          have h2 := h.2
          rw [hr] at h2
          simpa using h2.symm
        rw [fillDbWeb_upserts_of_nil false itemsLimit src hr, h.1]
        unfold ceilDivNat
        omega
    | cons x xs =>
        have hmod : (webLoop false itemsLimit 10 3 0 [] src).1.embeds.length
            % 10 = xs.length + 1 := by
          have h2 := h.2
          rw [hr] at h2
          simpa using h2.symm
        rw [fillDbWeb_upserts_of_ne_nil false itemsLimit src (by rw [hr]; simp)]
        simp only [List.length_append, List.length_cons, List.length_nil]
        rw [h.1]
        unfold ceilDivNat
        omega
  · intro hL
    have h0 : (([] : List α)).length < itemsLimit := by simpa using hL
    have h := webLoop_limited itemsLimit 10 3 src 0 [] h0
    have hsnd : (webLoop true itemsLimit 10 3 0 [] src).2 =
        (webLoop true itemsLimit 10 3 0 [] src).1.embeds := by
      simpa using h.2.1
    have hle : (webLoop true itemsLimit 10 3 0 [] src).1.embeds.length ≤
        itemsLimit := by
      have h3 := h.2.2
      simpa using h3
    rw [fillDbWeb_embeds]
    refine ⟨?_, hle⟩
    cases he : (webLoop true itemsLimit 10 3 0 [] src).1.embeds with
    | nil =>
        rw [fillDbWeb_upserts_of_nil true itemsLimit src (by rw [hsnd, he]),
          h.1]
        simp only [List.length_nil]
        unfold ceilDivNat
        have hlt : itemsLimit - 1 < itemsLimit := by omega
        simp [Nat.div_eq_of_lt hlt]
    | cons x xs =>
        rw [he] at hle
        simp only [List.length_cons] at hle
        rw [fillDbWeb_upserts_of_ne_nil true itemsLimit src
          (by rw [hsnd, he]; simp), h.1, hsnd, he]
        simp only [List.nil_append, List.length_singleton, List.length_cons]
        unfold ceilDivNat
        have hnum : xs.length + 1 + itemsLimit - 1 = xs.length + itemsLimit := by
          omega
        rw [hnum, Nat.add_div_right _ (show 0 < itemsLimit by omega)]
        have hzero : xs.length / itemsLimit = 0 :=
          Nat.div_eq_of_lt (by omega)
        rw [hzero]
        simp
  · exact fileLoop_upserts_eq 3 src 0
  · have := congrArg List.length (fileLoop_upserts_eq 3 src 0)
    simpa using this

/-- C3 witness: instantiating the amended flush-count law at a concrete
limited run (`items_limit = 4`, six valid records). -/
theorem claim3_flush_count_witness :
    (fillDbWeb true 4
          [some 1, some 2, some 3, some 4, some 5, some 6]).upserts.length =
        ceilDivNat
          (fillDbWeb true 4
            [some 1, some 2, some 3, some 4, some 5, some 6]).embeds.length 4
    ∧ (fillDbWeb true 4
          [some 1, some 2, some 3, some 4, some 5, some 6]).embeds.length ≤ 4 :=
  (claim3_flush_count 4
      [some (1 : Nat), some 2, some 3, some 4, some 5, some 6]).2.1
    (by decide)

theorem pollLoop_polls_le (ready : Nat → Bool) :
    ∀ (n i : Nat), (pollLoop ready i n).1 ≤ n := by
  intro n
  induction n with
  | zero => intro i; simp [pollLoop]
  | succ m ih =>
      intro i
      simp only [pollLoop]
      split
      · simp
      · dsimp only
        have := ih (i + 1)
        omega

theorem pollLoop_sleeps_one (ready : Nat → Bool) :
    ∀ (n i : Nat), ∀ d ∈ (pollLoop ready i n).2.1, d = 1 := by
  intro n
  induction n with
  | zero => intro i d hd; simp [pollLoop] at hd
  | succ m ih =>
      intro i d hd
      simp only [pollLoop] at hd
      split at hd
      · simp at hd
      · dsimp only at hd
        rcases List.mem_cons.mp hd with h1 | h2
        · exact h1
        · exact ih (i + 1) d h2

theorem pollLoop_ok_iff (ready : Nat → Bool) :
    ∀ (n i : Nat),
      (pollLoop ready i n).2.2 = true ↔
        ∃ j, i ≤ j ∧ j < i + n ∧ ready j = true := by
  intro n
  induction n with
  | zero =>
      intro i
      simp only [pollLoop]
      constructor
      · intro h; exact absurd h (by simp)
      · rintro ⟨j, h1, h2, _⟩; omega
  | succ m ih =>
      intro i
      simp only [pollLoop]
      split
      next hr =>
          constructor
          · intro _
            exact ⟨i, Nat.le_refl i, by omega, hr⟩
          · intro _; rfl
      next hr =>
          dsimp only
          rw [ih (i + 1)]
          constructor
          · rintro ⟨j, h1, h2, h3⟩
            exact ⟨j, by omega, by omega, h3⟩
          · rintro ⟨j, h1, h2, h3⟩
            refine ⟨j, ?_, by omega, h3⟩
            rcases Nat.lt_or_ge j (i + 1) with hj | hj
            · have hji : j = i := by omega
              rw [hji] at h3
              exact absurd h3 hr
            · exact hj

theorem upsertModel_polls (ready : Nat → Bool) (c : Option ε) (d : List α) :
    (upsertModel ready c d).polls = (pollLoop ready 0 10).1 := by
  simp only [upsertModel]
  split
  · split <;> rfl
  · rfl

theorem upsertModel_sleeps (ready : Nat → Bool) (c : Option ε) (d : List α) :
    (upsertModel ready c d).sleeps = (pollLoop ready 0 10).2.1 := by
  simp only [upsertModel]
  split
  · split <;> rfl
  · rfl

theorem upsertModel_clientCalled (ready : Nat → Bool) (c : Option ε)
    (d : List α) :
    (upsertModel ready c d).clientCalled = (pollLoop ready 0 10).2.2 := by
  simp only [upsertModel]
  split
  next h => rw [h]; split <;> rfl
  next h =>
      simp only [Bool.not_eq_true] at h
      rw [h]

/-- C4: every `PineconeDB.upsert` call polls the index readiness at most 10
times, every sleep between polls has the fixed duration 1 (linear, not
exponential, backoff); if the index never reports ready within the 10-poll
budget the call raises `PineconeDBError("Index is not ready after 10
seconds")`, never invokes the client's data upsert, and upserts nothing
(no partial upsert); if the index reports ready within the budget the data
upsert proceeds, and on client success all the data is upserted with no
exception. -/
theorem claim4_upsert_readiness {α ε : Type} (ready : Nat → Bool)
    (clientResult : Option ε) (data : List α) :
    (upsertModel ready clientResult data).polls ≤ 10
    ∧ (∀ d ∈ (upsertModel ready clientResult data).sleeps, d = 1)
    ∧ ((∀ i, i < 10 → ready i = false) →
        (upsertModel ready clientResult data).raised =
            some (.pineconeDBError "Index is not ready after 10 seconds" none)
        ∧ (upsertModel ready clientResult data).clientCalled = false
        ∧ (upsertModel ready clientResult data).upserted = [])
    ∧ ((∃ i, i < 10 ∧ ready i = true) →
        (upsertModel ready clientResult data).clientCalled = true
        ∧ (clientResult = none →
            (upsertModel ready clientResult data).upserted = data
            ∧ (upsertModel ready clientResult data).raised = none)) := by
  refine ⟨?_, ?_, ?_, ?_⟩
  · rw [upsertModel_polls]
    exact pollLoop_polls_le ready 10 0
  · rw [upsertModel_sleeps]
    exact pollLoop_sleeps_one ready 10 0
  · intro hnever
    have hfalse : (pollLoop ready 0 10).2.2 = false := by
      cases hv : (pollLoop ready 0 10).2.2 with
      | true =>
          obtain ⟨j, _, hj, h3⟩ := (pollLoop_ok_iff ready 10 0).mp hv
          rw [hnever j (by omega)] at h3
          cases h3
      | false => rfl
    simp [upsertModel, hfalse]
  · intro hsome
    obtain ⟨i, hi, hri⟩ := hsome
    have htrue : (pollLoop ready 0 10).2.2 = true :=
      (pollLoop_ok_iff ready 10 0).mpr ⟨i, Nat.zero_le i, by omega, hri⟩
    constructor
    · rw [upsertModel_clientCalled, htrue]
    · intro hc
      rw [hc]
      simp [upsertModel, htrue]

/-- C4 witness: a readiness status that never reports ready makes the
upsert call fail with the store-readiness error, never invoking the client
and upserting nothing. -/
theorem claim4_upsert_readiness_witness :
    (upsertModel (fun _ => false) (none : Option String)
          ([3] : List Nat)).raised =
        some (.pineconeDBError "Index is not ready after 10 seconds" none)
    ∧ (upsertModel (fun _ => false) (none : Option String)
          ([3] : List Nat)).clientCalled = false
    ∧ (upsertModel (fun _ => false) (none : Option String)
          ([3] : List Nat)).upserted = [] :=
  (claim4_upsert_readiness (fun _ => false) none [3]).2.2.1 (fun _ _ => rfl)

/-- C5: an unrecognized query-result shape makes the `/search` endpoint
return an empty article list together with exactly one error entry
("Unexpected result format") as a normal 200 response (no exception to the
caller), and recognized result shapes always return an empty error list —
so `errors` is non-empty only in the unrecognized-shape case. -/
theorem claim5_unrecognized_shape (ty : String) (ms : List QMatch) :
    searchNormalize (.unrecognized ty) = ([], ["Unexpected result format"])
    ∧ (searchNormalize (.unrecognized ty)).2.length = 1
    ∧ (searchNormalize (.attrMatches ms)).2 = []
    ∧ (searchNormalize (.dictMatches ms)).2 = []
    ∧ searchRoute (.ok (.unrecognized ty)) 3 =
        ⟨[3], 200, [], ["Unexpected result format"]⟩ := by
  refine ⟨rfl, rfl, rfl, rfl, ?_⟩
  norm_num [searchRoute, searchNormalize]

/-- C6 counterexample: the claim asserts that BOTH store operations wrap a
raising client into `PineconeDBError`.  `PineconeDB.query` has no
`try`/`except`: a client exception propagates unchanged, so a query
failure surfaces as the raw client exception, not as the store-specific
error kind. -/
theorem claim6_counterexample :
    queryModel (some "boom") (7 : Nat) =
        (Except.error (.client "boom") : Except (PyExc String) Nat)
    ∧ (PyExc.client "boom" : PyExc String).isPineconeDBError = false :=
  ⟨rfl, rfl⟩

/-- C6 (amended): `PineconeDB.upsert` wraps a raising client into
`PineconeDBError` carrying the original cause (and upserts nothing), but
`PineconeDB.query` does not catch at all: a client exception propagates
upward unchanged in kind, and a successful client query returns the
response as is. -/
theorem claim6_error_wrapping {α ε ρ : Type} (ready : Nat → Bool) (e : ε)
    (data : List α) (resp : ρ)
    (hready : ∃ i, i < 10 ∧ ready i = true) :
    (upsertModel ready (some e) data).raised =
        some (.pineconeDBError "Failed to upsert data" (some e))
    ∧ (upsertModel ready (some e) data).upserted = []
    ∧ queryModel (some e) resp =
        (Except.error (.client e) : Except (PyExc ε) ρ)
    ∧ (PyExc.client e).isPineconeDBError = false
    ∧ queryModel (none : Option ε) resp = Except.ok resp := by
  obtain ⟨i, hi, hri⟩ := hready
  have htrue : (pollLoop ready 0 10).2.2 = true :=
    (pollLoop_ok_iff ready 10 0).mpr ⟨i, Nat.zero_le i, by omega, hri⟩
  refine ⟨?_, ?_, rfl, rfl, rfl⟩ <;> simp [upsertModel, htrue]

/-- C6 witness: with an immediately-ready index, a client upsert failure
"boom" is re-raised as `PineconeDBError` carrying "boom" as its cause,
while the same failure in `query` propagates unwrapped. -/
theorem claim6_error_wrapping_witness :
    (upsertModel (fun _ => true) (some "boom") ([5] : List Nat)).raised =
        some (.pineconeDBError "Failed to upsert data" (some "boom"))
    ∧ (upsertModel (fun _ => true) (some "boom") ([5] : List Nat)).upserted = []
    ∧ queryModel (some "boom") (0 : Nat) =
        (Except.error (.client "boom") : Except (PyExc String) Nat)
    ∧ (PyExc.client "boom" : PyExc String).isPineconeDBError = false
    ∧ queryModel (none : Option String) (0 : Nat) = Except.ok 0 :=
  claim6_error_wrapping (fun _ => true) "boom" [5] 0 ⟨0, by decide, rfl⟩

/-- C7: `yield_from_web` constructs `CrawlingHelper` with the keyword
argument `scrapper`, which `CrawlingHelper.__init__` (accepting only
`browser_config`) rejects with `TypeError`; `CrawlingHelper` also defines
no `parse` method for `AsyncDataProvider` to iterate.  The web ingestion
entry point therefore fails before yielding a single article and before
any embed or upsert call. -/
theorem claim7_web_entry_broken (α : Type) (isLimited : Bool)
    (itemsLimit : Nat) :
    acceptsKeywords crawlingHelperInitKeywords yieldFromWebCtorKeywords = false
    ∧ crawlingHelperMethodNames.contains "parse" = false
    ∧ yieldFromWebModel α =
        Except.error
          "TypeError: CrawlingHelper.init got an unexpected keyword argument scrapper"
    ∧ fillDbWebEntry isLimited itemsLimit α =
        Except.error
          "TypeError: CrawlingHelper.init got an unexpected keyword argument scrapper" := by
  refine ⟨by decide, by decide, rfl, rfl⟩

theorem filterMap_normalizeMatch_eq (ms : List QMatch) :
    ms.filterMap normalizeMatch =
      (ms.filter QMatch.recognized).map (fun m => (normalizeMatch m).getD []) := by
  induction ms with
  | nil => rfl
  | cons m rest ih =>
      cases m with
      | attr md sc =>
          simp only [List.filterMap_cons, normalizeMatch, List.filter_cons,
            QMatch.recognized, List.map_cons, Option.getD_some, ih]
          simp
      | dict md sc =>
          simp only [List.filterMap_cons, normalizeMatch, List.filter_cons,
            QMatch.recognized, List.map_cons, Option.getD_some, ih]
          simp
      | other =>
          simp only [List.filterMap_cons, normalizeMatch, List.filter_cons,
            QMatch.recognized, ih]
          simp

/-- C8: the `/search` normalization produces exactly one article per
recognized match, in the store's match order (unrecognized matches are
skipped); each article is the match's metadata mapping with the match's
score (default `0.0` when absent, and the empty mapping when a dict match
carries no `"metadata"` key) appended under the `"score"` key exactly when
the mapping does not already contain one, and a mapping already carrying
`"score"` is returned unchanged. -/
theorem claim8_match_normalization (ms : List QMatch)
    (md : List (String × MVal)) (sc : Option ℚ) :
    (searchNormalize (.attrMatches ms)).1 =
        (ms.filter QMatch.recognized).map (fun m => (normalizeMatch m).getD [])
    ∧ (searchNormalize (.dictMatches ms)).1 =
        (ms.filter QMatch.recognized).map (fun m => (normalizeMatch m).getD [])
    ∧ (hasScoreKey md = false →
        normalizeMatch (.attr md sc) =
            some (md ++ [("score", MVal.num (sc.getD 0))])
        ∧ normalizeMatch (.dict (some md) sc) =
            some (md ++ [("score", MVal.num (sc.getD 0))]))
    ∧ (hasScoreKey md = true →
        normalizeMatch (.attr md sc) = some md
        ∧ normalizeMatch (.dict (some md) sc) = some md)
    ∧ normalizeMatch (.dict none sc) = some [("score", MVal.num (sc.getD 0))]
    ∧ normalizeMatch (.attr md none) =
        some (if hasScoreKey md then md
              else md ++ [("score", MVal.num 0)]) := by
  refine ⟨filterMap_normalizeMatch_eq ms, filterMap_normalizeMatch_eq ms,
    ?_, ?_, by simp [normalizeMatch, hasScoreKey], by simp [normalizeMatch]⟩
  · intro h
    constructor <;> simp [normalizeMatch, h]
  · intro h
    constructor <;> simp [normalizeMatch, h]

/-- C8 witness: a concrete match list — one attribute match whose metadata
lacks `"score"`, one unrecognized match, one dict match already carrying
`"score"` — normalizes to two articles in order, with the score injected
only into the first. -/
theorem claim8_match_normalization_witness :
    (searchNormalize
          (.attrMatches
            [.attr [("title", .str "t")] (some 2), .other,
              .dict (some [("score", .num 9)]) (some 4)])).1 =
        ([[.attr [("title", MVal.str "t")] (some 2), QMatch.other,
            .dict (some [("score", MVal.num 9)]) (some 4)].filter
              QMatch.recognized].head!).map
          (fun m => (normalizeMatch m).getD [])
    ∧ normalizeMatch (.attr [("title", MVal.str "t")] (some 2)) =
        some [("title", MVal.str "t"), ("score", MVal.num 2)]
    ∧ normalizeMatch (.dict (some [("score", MVal.num 9)]) (some 4)) =
        some [("score", MVal.num 9)] := by
  refine ⟨?_, ?_, ?_⟩
  · exact (claim8_match_normalization
      [.attr [("title", .str "t")] (some 2), .other,
        .dict (some [("score", .num 9)]) (some 4)] [] none).1
  · exact ((claim8_match_normalization []
      [("title", MVal.str "t")] (some 2)).2.2.1 (by decide)).1
  · exact ((claim8_match_normalization []
      [("score", MVal.num 9)] (some 4)).2.2.2.1 (by decide)).2

/-- C9: the `/search` route declares `top_k` with `Query(3, ge=1, le=10)`,
so a request with `top_k` outside `[1, 10]` is rejected with a 422
validation error before the handler runs — the store's query is never
invoked — and every `top_k` value that does reach `PineconeDB.query` lies
in `[1, 10]`. -/
theorem claim9_topk_validation (storeResult : Except String QResult)
    (topK : Int) :
    (topK < 1 ∨ 10 < topK →
        (searchRoute storeResult topK).queryCalls = []
        ∧ (searchRoute storeResult topK).status = 422)
    ∧ ∀ q ∈ (searchRoute storeResult topK).queryCalls, 1 ≤ q ∧ q ≤ 10 := by
  constructor
  · intro hout
    have hcond : ¬(1 ≤ topK ∧ topK ≤ 10) := by omega
    simp [searchRoute, hcond]
  · intro q hq
    by_cases hcond : 1 ≤ topK ∧ topK ≤ 10
    · have hqk : q = topK := by
        simp only [searchRoute, hcond, if_true] at hq
        cases storeResult with
        | error e => simpa using hq
        | ok r => simpa using hq
      rw [hqk]
      exact hcond
    · simp only [searchRoute, hcond, if_false] at hq
      simp at hq

/-- C9 witness: a request with `top_k = 11` is rejected with 422 and never
reaches the store. -/
theorem claim9_topk_validation_witness :
    (searchRoute (.ok (.attrMatches [])) 11).queryCalls = []
    ∧ (searchRoute (.ok (.attrMatches [])) 11).status = 422 :=
  (claim9_topk_validation (.ok (.attrMatches [])) 11).1 (by omega)

theorem splitNewlines_ne_nil : ∀ (l : List Char), splitNewlines l ≠ []
  | [] => by simp [splitNewlines]
  | c :: rest => by
      obtain ⟨x, xs, hx⟩ :=
        List.exists_cons_of_ne_nil (splitNewlines_ne_nil rest)
      simp only [splitNewlines, hx]
      split <;> simp

theorem splitNewlines_cons_nl (z : List Char) :
    splitNewlines ('\n' :: z) = [] :: splitNewlines z := by
  simp only [splitNewlines]
  cases h : splitNewlines z with
  | nil => exact absurd h (splitNewlines_ne_nil z)
  | cons x xs => simp

theorem splitNewlines_cons_of_ne {c : Char} (hc : ¬c = '\n') (z : List Char) :
    splitNewlines (c :: z) =
      (c :: (splitNewlines z).headD []) :: (splitNewlines z).tail := by
  simp only [splitNewlines]
  cases h : splitNewlines z with
  | nil => exact absurd h (splitNewlines_ne_nil z)
  | cons x xs => simp [hc]

theorem hasNewline_cons_false (c : Char) (x : List Char) :
    hasNewline (c :: x) = false ↔ ¬c = '\n' ∧ hasNewline x = false := by
  simp only [hasNewline, List.contains_cons, Bool.or_eq_false_iff,
    beq_eq_false_iff_ne, ne_eq]
  constructor
  · rintro ⟨h1, h2⟩
    exact ⟨fun hcc => h1 hcc.symm, h2⟩
  · rintro ⟨h1, h2⟩
    exact ⟨fun hcc => h1 hcc.symm, h2⟩

theorem hasNewline_cons_true (c : Char) (x : List Char) :
    hasNewline (c :: x) = true ↔ c = '\n' ∨ hasNewline x = true := by
  simp only [hasNewline, List.contains_cons, Bool.or_eq_true, beq_iff_eq]
  constructor
  · rintro (h1 | h2)
    · exact Or.inl h1.symm
    · exact Or.inr h2
  · rintro (h1 | h2)
    · exact Or.inl h1.symm
    · exact Or.inr h2

theorem splitNewlines_of_no_newline :
    ∀ {b : List Char}, hasNewline b = false → splitNewlines b = [b] := by
  intro b
  induction b with
  | nil => intro _; rfl
  | cons c rest ih =>
      intro h
      obtain ⟨hc, hr⟩ := (hasNewline_cons_false c rest).mp h
      rw [splitNewlines_cons_of_ne hc, ih hr]
      rfl

theorem splitNewlines_structure :
    ∀ {b : List Char}, hasNewline b = true →
      splitNewlines b =
        b.takeWhile notNl :: splitNewlines ((b.dropWhile notNl).tail) := by
  intro b
  induction b with
  | nil => intro h; simp [hasNewline] at h
  | cons c rest ih =>
      intro h
      by_cases hc : c = '\n'
      · subst hc
        rw [splitNewlines_cons_nl]
        have ht : notNl '\n' = false := by simp [notNl]
        simp [List.takeWhile_cons, List.dropWhile_cons, ht]
      · have hnc : notNl c = true := by simp [notNl, hc]
        have hr : hasNewline rest = true := by
          rcases (hasNewline_cons_true c rest).mp h with h1 | h2
          · exact absurd h1 hc
          · exact h2
        rw [splitNewlines_cons_of_ne hc, ih hr]
        simp [List.takeWhile_cons, List.dropWhile_cons, hnc]

theorem lastPart_no_newline_aux :
    ∀ (n : Nat) (b : List Char), b.length ≤ n →
      hasNewline (lastPart (splitNewlines b)) = false := by
  intro n
  induction n with
  | zero =>
      intro b hb
      have hbnil : b = [] := List.length_eq_zero.mp (Nat.le_zero.mp hb)
      subst hbnil
      rfl
  | succ m ih =>
      intro b hb
      by_cases h : hasNewline b = true
      · rw [splitNewlines_structure h]
        obtain ⟨x, xs, hx⟩ := List.exists_cons_of_ne_nil
          (splitNewlines_ne_nil ((b.dropWhile notNl).tail))
        rw [hx]
        have hstep :
            lastPart (b.takeWhile notNl :: x :: xs) = lastPart (x :: xs) := rfl
        rw [hstep, ← hx]
        refine ih ((b.dropWhile notNl).tail) ?_
        have hlt := splitFirstNewline_snd_length_lt h
        simp only [splitFirstNewline] at hlt
        omega
      · have hf : hasNewline b = false := by
          cases hv : hasNewline b with
          | true => exact absurd hv h
          | false => rfl
        rw [splitNewlines_of_no_newline hf]
        exact hf

theorem lastPart_no_newline (b : List Char) :
    hasNewline (lastPart (splitNewlines b)) = false :=
  lastPart_no_newline_aux b.length b (Nat.le_refl _)

theorem drainBufferFuel_spec :
    ∀ (fuel : Nat) (b : List Char), b.length ≤ fuel →
      drainBufferFuel fuel b =
        (initParts (splitNewlines b), lastPart (splitNewlines b)) := by
  intro fuel
  induction fuel with
  | zero =>
      intro b hb
      have hbnil : b = [] := List.length_eq_zero.mp (Nat.le_zero.mp hb)
      subst hbnil
      rfl
  | succ m ih =>
      intro b hb
      by_cases h : hasNewline b = true
      · simp only [drainBufferFuel, h, if_true, splitFirstNewline]
        have hlt := splitFirstNewline_snd_length_lt h
        simp only [splitFirstNewline] at hlt
        rw [ih ((b.dropWhile notNl).tail) (by omega)]
        rw [splitNewlines_structure h]
        obtain ⟨x, xs, hx⟩ := List.exists_cons_of_ne_nil
          (splitNewlines_ne_nil ((b.dropWhile notNl).tail))
        rw [hx]
        rfl
      · simp only [drainBufferFuel, h, if_false]
        have hf : hasNewline b = false := by
          cases hv : hasNewline b with
          | true => exact absurd hv h
          | false => rfl
        rw [splitNewlines_of_no_newline hf]
        rfl

theorem splitNewlines_append :
    ∀ (x y : List Char),
      splitNewlines (x ++ y) =
        initParts (splitNewlines x) ++
          glueHead (lastPart (splitNewlines x)) (splitNewlines y) := by
  intro x
  induction x with
  | nil =>
      intro y
      obtain ⟨m, ms, hm⟩ := List.exists_cons_of_ne_nil (splitNewlines_ne_nil y)
      rw [List.nil_append, hm]
      rfl
  | cons c x' ih =>
      intro y
      by_cases hc : c = '\n'
      · subst hc
        rw [List.cons_append, splitNewlines_cons_nl (x' ++ y),
          splitNewlines_cons_nl x', ih y]
        obtain ⟨m, ms, hm⟩ := List.exists_cons_of_ne_nil
          (splitNewlines_ne_nil x')
        rw [hm]
        rfl
      · rw [List.cons_append, splitNewlines_cons_of_ne hc (x' ++ y),
          splitNewlines_cons_of_ne hc x', ih y]
        obtain ⟨m, ms, hm⟩ := List.exists_cons_of_ne_nil
          (splitNewlines_ne_nil x')
        obtain ⟨q, qs, hq⟩ := List.exists_cons_of_ne_nil
          (splitNewlines_ne_nil y)
        rw [hm, hq]
        cases ms with
        | nil => rfl
        | cons m2 ms' => rfl

theorem glueHead_ne_nil (g : List Char) {s : List (List Char)} (hs : s ≠ []) :
    glueHead g s ≠ [] := by
  cases s with
  | nil => exact absurd rfl hs
  | cons h t => simp [glueHead]

theorem initParts_append_of_ne_nil :
    ∀ (a m : List (List Char)), m ≠ [] →
      initParts (a ++ m) = a ++ initParts m := by
  intro a
  induction a with
  | nil => intro m _; rfl
  | cons x a' ih =>
      intro m hm
      have hne : a' ++ m ≠ [] := by
        intro hnil
        rcases List.append_eq_nil.mp hnil with ⟨_, h2⟩
        exact hm h2
      obtain ⟨v, vs, hv⟩ := List.exists_cons_of_ne_nil hne
      rw [List.cons_append, hv]
      have hstep : initParts (x :: v :: vs) = x :: initParts (v :: vs) := rfl
      rw [hstep, ← hv, ih m hm]
      rfl

theorem parseChunks_spec :
    ∀ (cs : List (List Char)) (buf : List Char), hasNewline buf = false →
      parseChunks buf cs = initParts (splitNewlines (buf ++ cs.flatten)) := by
  intro cs
  induction cs with
  | nil =>
      intro buf hb
      rw [List.flatten_nil, List.append_nil, splitNewlines_of_no_newline hb]
      rfl
  | cons c cs' ih =>
      intro buf hb
      show (drainBuffer (buf ++ c)).1 ++ parseChunks (drainBuffer (buf ++ c)).2 cs' = _
      have hdb : drainBuffer (buf ++ c) =
          (initParts (splitNewlines (buf ++ c)),
            lastPart (splitNewlines (buf ++ c))) :=
        drainBufferFuel_spec (buf ++ c).length (buf ++ c) (Nat.le_refl _)
      rw [hdb]
      dsimp only
      rw [ih (lastPart (splitNewlines (buf ++ c)))
        (lastPart_no_newline (buf ++ c))]
      rw [List.flatten_cons, ← List.append_assoc]
      rw [splitNewlines_append (buf ++ c) cs'.flatten]
      rw [initParts_append_of_ne_nil _ _
        (glueHead_ne_nil _ (splitNewlines_ne_nil cs'.flatten))]
      rw [splitNewlines_append (lastPart (splitNewlines (buf ++ c))) cs'.flatten]
      rw [splitNewlines_of_no_newline (lastPart_no_newline (buf ++ c))]
      rfl

/-- C10: `FileParser.parse` yields exactly the newline-terminated lines of
the file contents (independently of how the reader chunks them): the
residual buffer after the final newline — a last record with no trailing
newline — is accumulated but never yielded.  In particular a two-line
stream whose second line lacks the trailing newline parses to just the
first line, silently losing the last record. -/
theorem claim10_parse_newline_terminated (chunks : List (List Char))
    (line1 line2 : List Char) (h1 : hasNewline line1 = false)
    (h2 : hasNewline line2 = false) :
    FileParser_parse chunks = newlineTerminatedLines chunks.flatten
    ∧ FileParser_parse [line1 ++ '\n' :: line2] = [line1] := by
  constructor
  · rw [show FileParser_parse chunks = parseChunks [] chunks from rfl,
      parseChunks_spec chunks [] rfl]
    rfl
  · rw [show FileParser_parse [line1 ++ '\n' :: line2] =
        parseChunks [] [line1 ++ '\n' :: line2] from rfl,
      parseChunks_spec [line1 ++ '\n' :: line2] [] rfl]
    rw [List.flatten_cons, List.flatten_nil, List.append_nil, List.nil_append]
    rw [splitNewlines_append line1 ('\n' :: line2),
      splitNewlines_of_no_newline h1, splitNewlines_cons_nl,
      splitNewlines_of_no_newline h2]
    simp [initParts, lastPart, glueHead]

/-- C10 witness: the general characterization at a concrete chunking, and
the concrete loss of an unterminated last record: `"a\nb"` parses to just
`["a"]`. -/
theorem claim10_parse_newline_terminated_witness :
    FileParser_parse [['x', '\n'], ['y']] =
        newlineTerminatedLines ([['x', '\n'], ['y']] : List (List Char)).flatten
    ∧ FileParser_parse [['a'] ++ '\n' :: ['b']] = [['a']] :=
  claim10_parse_newline_terminated [['x', '\n'], ['y']] ['a'] ['b']
    (by decide) (by decide)

end NewsIngest
